import Mathlib

/-!
Verification of the icinga health-state engine core
(`src/lib/icinga/checkable-flapping.cpp`, `src/lib/icinga/host.cpp`)
against its natural-language specification.

Machine integers are modelled as `Nat`/`Int` with explicit truncation where
the code truncates; `double` arithmetic on exactly-representable monitoring
quantities is modelled over `ℚ`; C++ exceptions are modelled with `Except`;
attribute slots that may be unset (`Value::IsEmpty`) are modelled as `Option`.
-/

namespace Icinga

/-! ## Flapping detector (`Checkable::UpdateFlappingStatus`) -/

/-- The checkable state touched by `Checkable::UpdateFlappingStatus`:
the persisted flapping buffer (a 20-bit bitmask stored as an integer),
the write index, the flapping flag, the current flapping value, the
last-change timestamp and the two hysteresis thresholds. -/
structure FlapState where
  flappingBuffer : Nat
  flappingIndex : Nat
  flapping : Bool
  flappingCurrent : ℚ
  flappingLastChange : ℚ
  flappingThresholdLow : ℚ
  flappingThresholdHigh : ℚ
  deriving DecidableEq

/-- `std::bitset<20>::set(i, v)`: set or clear bit `i` of a 20-bit mask. -/
def bitsetSet (b : Nat) (i : Nat) (v : Bool) : Nat :=
  if v then b ||| 2 ^ i else b &&& ((2 ^ 20 - 1) ^^^ 2 ^ i)

/-- `Checkable::UpdateFlappingStatus(bool stateChange)`.  The bitset
constructor keeps the low 20 bits of the persisted integer; the weighted
total iterates the 20 slots starting at the advanced index (the oldest
slot); hysteresis compares against the low threshold when already flapping,
the high threshold otherwise.  `SetFlapping` runs before the
`flapping != GetFlapping()` comparison, exactly as in the source. -/
def updateFlappingStatus (s : FlapState) (stateChange : Bool) (now : ℚ) : FlapState :=
  let flappingBuffer := s.flappingBuffer % 2 ^ 20
  let stateChangeBuf := bitsetSet flappingBuffer s.flappingIndex stateChange
  let oldestIndex := (s.flappingIndex + 1) % 20
  let stateChanges : ℚ := (List.range 20).foldl
    (fun acc i =>
      if stateChangeBuf.testBit ((oldestIndex + i) % 20) then acc + (0.8 + 0.02 * (i : ℚ))
      else acc) 0
  let flappingValue : ℚ := 100 * stateChanges / 20
  let flapping : Bool :=
    if s.flapping then decide (flappingValue > s.flappingThresholdLow)
    else decide (flappingValue > s.flappingThresholdHigh)
  let s1 : FlapState :=
    { s with
      flappingBuffer := stateChangeBuf
      flappingIndex := oldestIndex
      flappingCurrent := flappingValue
      flapping := flapping }
  if flapping ≠ s1.flapping then { s1 with flappingLastChange := now } else s1

/-- The weighted sum described by the spec: over all 20 slots, a set bit of
age `i` in iteration order (i = 0 the oldest slot, i.e. the one at the
advanced write index) contributes `0.8 + 0.02*i`. -/
def flappingWeightedSum (buf : Nat) (oldestIndex : Nat) : ℚ :=
  ∑ i ∈ Finset.range 20,
    (if buf.testBit ((oldestIndex + i) % 20) then (0.8 : ℚ) + 0.02 * (i : ℚ) else 0)

theorem foldl_weight_eq_sum (p : Nat → Bool) (f : Nat → ℚ) :
    ∀ (n : Nat) (init : ℚ),
      (List.range n).foldl (fun acc i => if p i then acc + f i else acc) init
        = init + ∑ i ∈ Finset.range n, (if p i then f i else 0) := by
  intro n
  induction n with
  | zero => intro init; simp
  | succ m ih =>
    intro init
    rw [List.range_succ, List.foldl_append, ih, Finset.sum_range_succ]
    cases hp : p m with
    | false => simp [hp]
    | true => simp [hp]; ring

theorem testBit_twoPowSubOne_xor (i j : Nat) (hi : i < 20) :
    ((2 ^ 20 - 1) ^^^ 2 ^ i).testBit j = (decide (j < 20) && ! decide (j = i)) := by
  rw [Nat.testBit_xor, Nat.testBit_two_pow_sub_one, Nat.testBit_two_pow]
  rcases Decidable.em (j = i) with h | h
  · subst h; simp [hi]
  · have h2 : i ≠ j := fun hh => h hh.symm
    simp [h, h2]

/-- Characterization of `bitsetSet` on the bits below 20. -/
theorem testBit_bitsetSet (b i j : Nat) (v : Bool) (hi : i < 20) (hj : j < 20) :
    (bitsetSet b i v).testBit j = if j = i then v else b.testBit j := by
  unfold bitsetSet
  cases v with
  | true =>
    rw [if_pos rfl, Nat.testBit_lor, Nat.testBit_two_pow]
    rcases Decidable.em (j = i) with h | h
    · subst h; simp
    · have h2 : i ≠ j := fun hh => h hh.symm
      simp [h, h2]
  | false =>
    rw [if_neg (by simp), Nat.testBit_land, testBit_twoPowSubOne_xor i j hi]
    rcases Decidable.em (j = i) with h | h
    · subst h; simp
    · simp [h, hj]

theorem bitsetSet_lt (b i : Nat) (v : Bool) (hb : b < 2 ^ 20) (hi : i < 20) :
    bitsetSet b i v < 2 ^ 20 := by
  unfold bitsetSet
  cases v with
  | true =>
    rw [if_pos rfl]
    exact Nat.or_lt_two_pow hb (Nat.pow_lt_pow_right (by norm_num) hi)
  | false =>
    rw [if_neg (by simp)]
    exact Nat.and_lt_two_pow b
      (Nat.xor_lt_two_pow (by have := Nat.two_pow_pos 20; omega)
        (Nat.pow_lt_pow_right (by norm_num) hi))

/-- The flapping value produced by one update step, expressed through the
spec-side weighted sum over the updated buffer, starting at the advanced
(oldest) index. -/
def flapValue (s : FlapState) (c : Bool) : ℚ :=
  100 * flappingWeightedSum (bitsetSet (s.flappingBuffer % 2 ^ 20) s.flappingIndex c)
      ((s.flappingIndex + 1) % 20) / 20

/-- Closed form of one `UpdateFlappingStatus` step.  The final
`flapping != GetFlapping()` comparison in the source reads the attribute
that `SetFlapping` has just written, so the last-change branch never
executes and `flappingLastChange` is carried over unchanged. -/
theorem updateFlappingStatus_eq (s : FlapState) (c : Bool) (t : ℚ) :
    updateFlappingStatus s c t =
      { s with
        flappingBuffer := bitsetSet (s.flappingBuffer % 2 ^ 20) s.flappingIndex c
        flappingIndex := (s.flappingIndex + 1) % 20
        flappingCurrent := flapValue s c
        flapping :=
          if s.flapping then decide (flapValue s c > s.flappingThresholdLow)
          else decide (flapValue s c > s.flappingThresholdHigh) } := by
  unfold updateFlappingStatus flapValue flappingWeightedSum
  simp [foldl_weight_eq_sum]

/-- C1: for every 20-bit flapping buffer, every write index in 0–19 and
every boolean `stateChange`, `UpdateFlappingStatus` writes `stateChange`
into the slot at the current write index (all other slots unchanged),
advances the index modulo 20, and stores as the current flapping value
`100 * W / 20` where `W` sums `0.8 + 0.02*i` over the set slots, `i` being
the slot's age in iteration order starting from the oldest slot. -/
theorem updateFlappingStatus_correct (s : FlapState) (c : Bool) (t : ℚ)
    (hb : s.flappingBuffer < 2 ^ 20) (hi : s.flappingIndex < 20) :
    (updateFlappingStatus s c t).flappingIndex = (s.flappingIndex + 1) % 20 ∧
    (∀ j, j < 20 →
      (updateFlappingStatus s c t).flappingBuffer.testBit j
        = if j = s.flappingIndex then c else s.flappingBuffer.testBit j) ∧
    (updateFlappingStatus s c t).flappingCurrent
      = 100 * flappingWeightedSum (updateFlappingStatus s c t).flappingBuffer
          (updateFlappingStatus s c t).flappingIndex / 20 := by
  have hmod : s.flappingBuffer % 2 ^ 20 = s.flappingBuffer := Nat.mod_eq_of_lt hb
  rw [updateFlappingStatus_eq]
  refine ⟨rfl, ?_, ?_⟩
  · intro j hj
    simp only [hmod]
    exact testBit_bitsetSet s.flappingBuffer s.flappingIndex j c hi hj
  · rfl

/-- Witness for C1 at a concrete state: buffer 0, write index 3, observing a
state change. -/
def c1State : FlapState :=
  { flappingBuffer := 0
    flappingIndex := 3
    flapping := false
    flappingCurrent := 0
    flappingLastChange := 0
    flappingThresholdLow := 25
    flappingThresholdHigh := 30 }

theorem updateFlappingStatus_correct_witness :
    c1State.flappingBuffer < 2 ^ 20 ∧ c1State.flappingIndex < 20 ∧
    (updateFlappingStatus c1State true 0).flappingIndex = (c1State.flappingIndex + 1) % 20 ∧
    (updateFlappingStatus c1State true 0).flappingBuffer.testBit 3 = true ∧
    (updateFlappingStatus c1State true 0).flappingCurrent
      = 100 * flappingWeightedSum (updateFlappingStatus c1State true 0).flappingBuffer
          (updateFlappingStatus c1State true 0).flappingIndex / 20 := by
  have h := updateFlappingStatus_correct c1State true 0 (by decide) (by decide)
  refine ⟨by decide, by decide, h.1, ?_, h.2.2⟩
  have h3 := h.2.1 3 (by decide)
  simpa using h3

/-- An update of a state whose history mask is zero and which observes no
state change computes flapping value 0. -/
theorem flapValue_buffer_zero (s : FlapState) (h0 : s.flappingBuffer = 0) :
    flapValue s false = 0 := by
  simp [flapValue, h0, bitsetSet, flappingWeightedSum, Nat.zero_testBit]

/-- A state about to transition from not-flapping to flapping: the next
computed value 0 is above the high threshold -1. -/
def c2State : FlapState :=
  { flappingBuffer := 0
    flappingIndex := 0
    flapping := false
    flappingCurrent := 0
    flappingLastChange := 0
    flappingThresholdLow := -2
    flappingThresholdHigh := -1 }

/-- C2 (code bug): `SetFlappingLastChange` is dead code.  `SetFlapping` runs
before the `flapping != GetFlapping()` comparison, so the comparison reads
back the value just stored and is always false: the last-change timestamp is
never updated, even on a genuine flapping-state transition (second conjunct:
a concrete call that transitions the flag from false to true yet leaves the
timestamp at its old value instead of the current time 42). -/
theorem flappingLastChange_never_recorded :
    (∀ (s : FlapState) (c : Bool) (t : ℚ),
      (updateFlappingStatus s c t).flappingLastChange = s.flappingLastChange) ∧
    (c2State.flapping = false ∧
      (updateFlappingStatus c2State false 42).flapping = true ∧
      ¬ (updateFlappingStatus c2State false 42).flappingLastChange = 42) := by
  have hv : flapValue c2State false = 0 := flapValue_buffer_zero _ rfl
  refine ⟨fun s c t => by rw [updateFlappingStatus_eq], rfl, ?_, ?_⟩
  · rw [updateFlappingStatus_eq]
    show (if c2State.flapping then
        decide (flapValue c2State false > c2State.flappingThresholdLow)
      else decide (flapValue c2State false > c2State.flappingThresholdHigh)) = true
    rw [if_neg (by simp [c2State]), hv]
    norm_num [c2State]
  · rw [updateFlappingStatus_eq]
    show ¬ c2State.flappingLastChange = 42
    norm_num [c2State]

/-- A flapping entity whose next computed value lands exactly on the low
threshold. -/
def c3State : FlapState :=
  { flappingBuffer := 0
    flappingIndex := 0
    flapping := true
    flappingCurrent := 0
    flappingLastChange := 0
    flappingThresholdLow := 0
    flappingThresholdHigh := 50 }

/-- C3 counterexample: a percentage exactly equal to the low threshold does
cause a transition.  Here the entity is flapping, the computed value equals
the low threshold exactly, and the flag transitions to false. -/
theorem flapping_equal_threshold_transitions :
    c3State.flapping = true ∧
    (updateFlappingStatus c3State false 0).flappingCurrent = c3State.flappingThresholdLow ∧
    (updateFlappingStatus c3State false 0).flapping = false := by
  have hv : flapValue c3State false = 0 := flapValue_buffer_zero _ rfl
  refine ⟨rfl, ?_, ?_⟩
  · rw [updateFlappingStatus_eq]
    show flapValue c3State false = c3State.flappingThresholdLow
    rw [hv]
    rfl
  · rw [updateFlappingStatus_eq]
    show (if c3State.flapping then
        decide (flapValue c3State false > c3State.flappingThresholdLow)
      else decide (flapValue c3State false > c3State.flappingThresholdHigh)) = false
    rw [if_pos (by simp [c3State]), hv]
    simp [c3State]

/-- C3 (amended): hysteresis comparisons are strict — when already flapping
the new flag is true exactly when the value strictly exceeds the low
threshold, otherwise exactly when it strictly exceeds the high threshold;
hence a value exactly equal to the high threshold never turns flapping on,
but a value exactly equal to the low threshold while flapping does turn it
off. -/
theorem flapping_hysteresis_strict (s : FlapState) (c : Bool) (t : ℚ) :
    ((updateFlappingStatus s c t).flapping =
      if s.flapping then
        decide ((updateFlappingStatus s c t).flappingCurrent > s.flappingThresholdLow)
      else
        decide ((updateFlappingStatus s c t).flappingCurrent > s.flappingThresholdHigh)) ∧
    (s.flapping = false →
      (updateFlappingStatus s c t).flappingCurrent = s.flappingThresholdHigh →
      (updateFlappingStatus s c t).flapping = false) := by
  rw [updateFlappingStatus_eq]
  constructor
  · rfl
  · intro hs hv
    simp only [hs, Bool.false_eq_true, if_false] at hv ⊢
    rw [hv]
    simp

/-- Not-flapping state whose next value is exactly the high threshold. -/
def c3WitnessState : FlapState :=
  { flappingBuffer := 0
    flappingIndex := 0
    flapping := false
    flappingCurrent := 0
    flappingLastChange := 0
    flappingThresholdLow := 0
    flappingThresholdHigh := 0 }

theorem flapping_hysteresis_strict_witness :
    (updateFlappingStatus c3WitnessState false 0).flapping = false :=
  (flapping_hysteresis_strict c3WitnessState false 0).2 rfl
    (by
      rw [updateFlappingStatus_eq]
      show flapValue c3WitnessState false = c3WitnessState.flappingThresholdHigh
      rw [flapValue_buffer_zero _ rfl]
      rfl)

/-! ## Services, reachability (`Host::IsReachable`) -/

/-- Service states used by `Host::IsReachable` (`StateOK`, `StateWarning`,
`StateCritical`, `StateUnknown`). -/
inductive ServiceState where
  | ok
  | warning
  | critical
  | unknown
  deriving DecidableEq

/-- `StateTypeSoft` / `StateTypeHard`. -/
inductive StateType where
  | soft
  | hard
  deriving DecidableEq

/-- The slice of a Service that `Host::IsReachable` and the service cache
read: its unique name, its declared host name, its state, state type and
whether a check result has been produced yet. -/
structure Service where
  name : String
  hostName : String
  state : ServiceState
  stateType : StateType
  lastCheckResult : Option Unit
  deriving DecidableEq

/-- The parent-service loop of `Host::IsReachable`: pending services, soft
states and states OK/Warning are skipped; any other service ends the loop
with `false`. -/
def parentServicesReachable : List Service → Bool
  | [] => true
  | service :: rest =>
    if service.lastCheckResult.isNone then parentServicesReachable rest
    else if service.stateType = StateType.soft then parentServicesReachable rest
    else if service.state = ServiceState.ok ∨ service.state = ServiceState.warning then
      parentServicesReachable rest
    else false

/-- The parent-host loop of `Host::IsReachable`: hosts that are up are
skipped; any other host ends the loop with `false`.  Each parent host is
represented by its `IsUp()` value. -/
def parentHostsReachable : List Bool → Bool
  | [] => true
  | up :: rest => if up then parentHostsReachable rest else false

/-- `Host::IsReachable`, over the host's resolved parent services and the
`IsUp()` values of its resolved parent hosts. -/
def isReachable (parentServices : List Service) (parentHostsUp : List Bool) : Bool :=
  parentServicesReachable parentServices && parentHostsReachable parentHostsUp

theorem parentServicesReachable_eq_false_iff (services : List Service) :
    parentServicesReachable services = false ↔
      ∃ service ∈ services, service.lastCheckResult.isSome
        ∧ service.stateType = StateType.hard
        ∧ service.state ≠ ServiceState.ok ∧ service.state ≠ ServiceState.warning := by
  induction services with
  | nil => simp [parentServicesReachable]
  | cons service rest ih =>
    unfold parentServicesReachable
    rcases hr : service.lastCheckResult with _ | u <;>
      cases hst : service.stateType <;>
      by_cases hok : service.state = ServiceState.ok ∨ service.state = ServiceState.warning <;>
        simp_all [List.mem_cons] <;> tauto

theorem parentHostsReachable_eq_false_iff (hostsUp : List Bool) :
    parentHostsReachable hostsUp = false ↔ ∃ up ∈ hostsUp, up = false := by
  induction hostsUp with
  | nil => simp [parentHostsReachable]
  | cons up rest ih =>
    unfold parentHostsReachable
    cases up <;> simp_all [List.mem_cons]

/-- C4: `IsReachable` returns false exactly when some parent service has a
check result, is in a hard state and is in a state other than OK/Warning, or
some parent host is not up; pending and soft-state parent services never
make the host unreachable. -/
theorem isReachable_eq_false_iff (parentServices : List Service) (parentHostsUp : List Bool) :
    isReachable parentServices parentHostsUp = false ↔
      (∃ service ∈ parentServices, service.lastCheckResult.isSome
          ∧ service.stateType = StateType.hard
          ∧ service.state ≠ ServiceState.ok ∧ service.state ≠ ServiceState.warning)
        ∨ (∃ up ∈ parentHostsUp, up = false) := by
  unfold isReachable
  rw [Bool.and_eq_false_iff, parentServicesReachable_eq_false_iff,
    parentHostsReachable_eq_false_iff]

/-! ## Acknowledgement manager (`Host::GetAcknowledgement` and friends) -/

/-- `AcknowledgementNone` (the enum is stored as a plain integer
attribute). -/
def AcknowledgementNone : Int := 0

/-- `AcknowledgementNormal`. -/
def AcknowledgementNormal : Int := 1

/-- `AcknowledgementSticky`. -/
def AcknowledgementSticky : Int := 2

/-- The two replicated host attributes read and written by the
acknowledgement accessors; `none` models an attribute whose stored `Value`
is empty (never set). -/
structure AckHost where
  acknowledgement : Option Int
  acknowledgementExpiry : Option ℚ
  deriving DecidableEq

/-- `Host::SetAcknowledgement`: a plain store. -/
def setAcknowledgement (h : AckHost) (acknowledgement : Int) : AckHost :=
  { h with acknowledgement := some acknowledgement }

/-- `Host::GetAcknowledgementExpiry`: an empty stored value reads as 0. -/
def getAcknowledgementExpiry (h : AckHost) : ℚ :=
  match h.acknowledgementExpiry with
  | none => 0
  | some value => value

/-- `Host::SetAcknowledgementExpiry`: a plain store. -/
def setAcknowledgementExpiry (h : AckHost) (timestamp : ℚ) : AckHost :=
  { h with acknowledgementExpiry := some timestamp }

/-- `Host::GetAcknowledgement(now)`: returns the acknowledgement type and
the (possibly updated) host.  An empty stored value reads as none with no
writes; a non-none value whose nonzero expiry has passed is cleared
(type and expiry both written) and none is returned. -/
def getAcknowledgement (h : AckHost) (now : ℚ) : Int × AckHost :=
  match h.acknowledgement with
  | none => (AcknowledgementNone, h)
  | some value =>
    if value ≠ AcknowledgementNone then
      let expiry := getAcknowledgementExpiry h
      if expiry ≠ 0 ∧ expiry < now then
        (AcknowledgementNone,
          setAcknowledgementExpiry (setAcknowledgement h AcknowledgementNone) 0)
      else (value, h)
    else (value, h)

/-- C6: for a host whose stored acknowledgement type is not none, a nonzero
expiry strictly in the past makes the read clear both fields and return
none; otherwise the read returns the stored type and performs no writes.
In particular `SetAcknowledgement(Sticky)` followed by
`SetAcknowledgementExpiry(t)` with `t` nonzero and in the past makes the
next read return none with both fields cleared. -/
theorem getAcknowledgement_expiry (h : AckHost) (now : ℚ) (v : Int)
    (hv : h.acknowledgement = some v) (hvn : v ≠ AcknowledgementNone) :
    ((getAcknowledgementExpiry h ≠ 0 ∧ getAcknowledgementExpiry h < now) →
      getAcknowledgement h now =
        (AcknowledgementNone, { acknowledgement := some AcknowledgementNone,
                                acknowledgementExpiry := some 0 })) ∧
    (¬ (getAcknowledgementExpiry h ≠ 0 ∧ getAcknowledgementExpiry h < now) →
      getAcknowledgement h now = (v, h)) ∧
    (∀ t : ℚ, t ≠ 0 → t < now →
      getAcknowledgement (setAcknowledgementExpiry (setAcknowledgement h AcknowledgementSticky) t) now =
        (AcknowledgementNone, { acknowledgement := some AcknowledgementNone,
                                acknowledgementExpiry := some 0 })) := by
  refine ⟨?_, ?_, ?_⟩
  · intro hexp
    simp [getAcknowledgement, hv, hvn, hexp, setAcknowledgement, setAcknowledgementExpiry]
  · intro hexp
    simp [getAcknowledgement, hv, hvn, hexp]
  · intro t ht hlt
    simp [getAcknowledgement, setAcknowledgement, setAcknowledgementExpiry,
      getAcknowledgementExpiry, AcknowledgementSticky, AcknowledgementNone, ht, hlt]

/-- Witness for C6: sticky acknowledgement, expiry 5, read at time 10. -/
def c6Host : AckHost :=
  { acknowledgement := some AcknowledgementSticky
    acknowledgementExpiry := some 5 }

theorem getAcknowledgement_expiry_witness :
    getAcknowledgement c6Host 10 =
      (AcknowledgementNone, { acknowledgement := some AcknowledgementNone,
                              acknowledgementExpiry := some 0 }) :=
  (getAcknowledgement_expiry c6Host 10 AcknowledgementSticky rfl (by decide)).1
    (by constructor <;> norm_num [c6Host, getAcknowledgementExpiry])

/-- C10: reading the acknowledgement of a host whose stored acknowledgement
attribute is empty returns none and performs no writes at all — the expiry
attribute keeps whatever (possibly stale, nonzero) value it had. -/
theorem getAcknowledgement_empty_frame (expiry : Option ℚ) (now : ℚ) :
    getAcknowledgement { acknowledgement := none, acknowledgementExpiry := expiry } now =
      (AcknowledgementNone, { acknowledgement := none, acknowledgementExpiry := expiry }) := rfl

/-! ## Entity registry and dependency resolver
(`Host::GetByName`, `Host::ResolveService`, `Host::GetParentHosts`,
`Host::GetParentServices`) -/

/-- Lookup failures (`BOOST_THROW_EXCEPTION(invalid_argument(...))`). -/
inductive LookupError where
  | hostNotFound (name : String)
  | serviceNotFound (name : String)
  deriving DecidableEq

/-- The slice of a Host that the dependency resolver reads: its unique name
and its two dependency maps (the maps' keys are the referenced entity
names; a null dictionary is `none`). -/
structure HostObj where
  name : String
  hostDependencies : Option (List String)
  serviceDependencies : Option (List String)
  deriving DecidableEq

/-- The process-wide registry of named entities. -/
structure Registry where
  hosts : List HostObj
  services : List Service
  deriving DecidableEq

/-- `DynamicObject::GetObject("Host", name)`. -/
def hostGetObject (reg : Registry) (name : String) : Option HostObj :=
  reg.hosts.find? (fun h => h.name = name)

/-- `Host::Exists`. -/
def hostExists (reg : Registry) (name : String) : Bool :=
  (hostGetObject reg name).isSome

/-- `Host::GetByName`: throws `invalid_argument` when the host is absent. -/
def hostGetByName (reg : Registry) (name : String) : Except LookupError HostObj :=
  match hostGetObject reg name with
  | none => .error (.hostNotFound name)
  | some host => .ok host

/-- Modelled from the spec: `Service::GetObject`-style lookup backing
`Service::Exists` (the Service class body is outside this repository
slice; §4.2 specifies a name-keyed registry lookup). -/
def serviceGetObject (reg : Registry) (name : String) : Option Service :=
  reg.services.find? (fun s => s.name = name)

/-- Modelled from the spec: `Service::Exists` (§4.2: existence check by
unique name). -/
def serviceExists (reg : Registry) (name : String) : Bool :=
  (serviceGetObject reg name).isSome

/-- Modelled from the spec: `Service::GetByName` (§4.2: fails with NotFound
if absent). -/
def serviceGetByName (reg : Registry) (name : String) : Except LookupError Service :=
  match serviceGetObject reg name with
  | none => .error (.serviceNotFound name)
  | some service => .ok service

/-- `Host::ResolveService`: first try the host-scoped name
`"<host>-<name>"`, then fall back to a bare lookup. -/
def resolveService (reg : Registry) (hostName : String) (name : String) :
    Except LookupError Service :=
  let combinedName := hostName ++ "-" ++ name
  if serviceExists reg combinedName then serviceGetByName reg combinedName
  else serviceGetByName reg name

/-- The dependency-key loop of `Host::GetParentHosts`: skip the host's own
name, look every other key up with `Host::GetByName` (which throws on a
missing host). -/
def getParentHostsLoop (reg : Registry) (selfName : String) :
    List String → List HostObj → Except LookupError (List HostObj)
  | [], parents => .ok parents
  | key :: rest, parents =>
    if key = selfName then getParentHostsLoop reg selfName rest parents
    else
      match hostGetByName reg key with
      | .error e => .error e
      | .ok host => getParentHostsLoop reg selfName rest (parents ++ [host])

/-- `Host::GetParentHosts`. -/
def getParentHosts (reg : Registry) (host : HostObj) : Except LookupError (List HostObj) :=
  match host.hostDependencies with
  | none => .ok []
  | some dependencies => getParentHostsLoop reg host.name dependencies []

/-- The dependency-key loop of `Host::GetParentServices`: every key is
resolved with `Host::ResolveService` (which throws when neither the
host-scoped nor the bare name exists). -/
def getParentServicesLoop (reg : Registry) (hostName : String) :
    List String → List Service → Except LookupError (List Service)
  | [], parents => .ok parents
  | key :: rest, parents =>
    match resolveService reg hostName key with
    | .error e => .error e
    | .ok service => getParentServicesLoop reg hostName rest (parents ++ [service])

/-- `Host::GetParentServices`. -/
def getParentServices (reg : Registry) (host : HostObj) : Except LookupError (List Service) :=
  match host.serviceDependencies with
  | none => .ok []
  | some dependencies => getParentServicesLoop reg host.name dependencies []

theorem getParentHostsLoop_ok (reg : Registry) (selfName : String) :
    ∀ (keys : List String) (acc : List HostObj),
      (∀ k ∈ keys, k ≠ selfName → hostExists reg k = true) →
      getParentHostsLoop reg selfName keys acc
        = .ok (acc ++ (keys.filter (fun k => k != selfName)).filterMap (hostGetObject reg)) := by
  intro keys
  induction keys with
  | nil => intro acc _; simp [getParentHostsLoop]
  | cons key rest ih =>
    intro acc hall
    unfold getParentHostsLoop
    by_cases hs : key = selfName
    · rw [if_pos hs]
      rw [ih acc (fun k hk hne => hall k (List.mem_cons_of_mem _ hk) hne)]
      simp [hs]
    · rw [if_neg hs]
      have hex : hostExists reg key = true := hall key (List.mem_cons_self ..) hs
      unfold hostExists at hex
      rcases ho : hostGetObject reg key with _ | host
      · rw [ho] at hex; simp at hex
      · unfold hostGetByName
        rw [ho]
        show getParentHostsLoop reg selfName rest (acc ++ [host]) = _
        rw [ih (acc ++ [host]) (fun k hk hne => hall k (List.mem_cons_of_mem _ hk) hne)]
        have hkey : (key != selfName) = true := by simp [hs]
        simp [List.filter_cons, hkey, ho]

theorem getParentHostsLoop_error (reg : Registry) (selfName : String) :
    ∀ (keys : List String) (acc : List HostObj),
      (∃ k ∈ keys, k ≠ selfName ∧ hostExists reg k = false) →
      ∃ e, getParentHostsLoop reg selfName keys acc = .error e := by
  intro keys
  induction keys with
  | nil => intro acc h; simp at h
  | cons key rest ih =>
    intro acc ⟨k, hk, hne, hnex⟩
    unfold getParentHostsLoop
    by_cases hs : key = selfName
    · rw [if_pos hs]
      apply ih
      rcases List.mem_cons.mp hk with he | hm
      · subst he; exact absurd hs hne
      · exact ⟨k, hm, hne, hnex⟩
    · rw [if_neg hs]
      rcases ho : hostGetObject reg key with _ | host
      · exact ⟨.hostNotFound key, by unfold hostGetByName; rw [ho]⟩
      · unfold hostGetByName
        rw [ho]
        show ∃ e, getParentHostsLoop reg selfName rest (acc ++ [host]) = .error e
        apply ih
        rcases List.mem_cons.mp hk with he | hm
        · rw [he] at hnex
          unfold hostExists at hnex
          rw [ho] at hnex
          simp at hnex
        · exact ⟨k, hm, hne, hnex⟩

theorem getParentServicesLoop_ok (reg : Registry) (hostName : String) :
    ∀ (keys : List String) (acc : List Service),
      (∀ k ∈ keys, (resolveService reg hostName k).toOption.isSome = true) →
      getParentServicesLoop reg hostName keys acc
        = .ok (acc ++ keys.filterMap (fun k => (resolveService reg hostName k).toOption)) := by
  intro keys
  induction keys with
  | nil => intro acc _; simp [getParentServicesLoop]
  | cons key rest ih =>
    intro acc hall
    unfold getParentServicesLoop
    rcases hr : resolveService reg hostName key with e | service
    · have := hall key (List.mem_cons_self ..)
      rw [hr] at this; simp [Except.toOption] at this
    · show getParentServicesLoop reg hostName rest (acc ++ [service]) = _
      rw [ih (acc ++ [service]) (fun k hk => hall k (List.mem_cons_of_mem _ hk))]
      simp [hr, Except.toOption]

theorem getParentServicesLoop_error (reg : Registry) (hostName : String) :
    ∀ (keys : List String) (acc : List Service),
      (∃ k ∈ keys, serviceExists reg (hostName ++ "-" ++ k) = false
        ∧ serviceExists reg k = false) →
      ∃ e, getParentServicesLoop reg hostName keys acc = .error e := by
  intro keys
  induction keys with
  | nil => intro acc h; simp at h
  | cons key rest ih =>
    intro acc ⟨k, hk, hc, hb⟩
    unfold getParentServicesLoop
    rcases hr : resolveService reg hostName key with e | service
    · exact ⟨e, rfl⟩
    · show ∃ e, getParentServicesLoop reg hostName rest (acc ++ [service]) = .error e
      apply ih
      rcases List.mem_cons.mp hk with he | hm
      · rw [he] at hc hb
        unfold resolveService at hr
        rw [if_neg (by rw [hc]; simp)] at hr
        unfold serviceGetByName at hr
        unfold serviceExists at hb
        rcases hso : serviceGetObject reg key with _ | svc
        · rw [hso] at hr; simp at hr
        · rw [hso] at hb; simp at hb
      · exact ⟨k, hm, hc, hb⟩

/-- A host depending on a host name that resolves to nothing. -/
def c5Host : HostObj :=
  { name := "h", hostDependencies := some ["missing"], serviceDependencies := none }

/-- A registry holding only `c5Host` itself. -/
def c5Registry : Registry :=
  { hosts := [c5Host], services := [] }

/-- C5 counterexample: a host-dependency entry whose referenced name does
not resolve is not skipped — `Host::GetByName` throws and the whole
`GetParentHosts` computation aborts with the error. -/
theorem getParentHosts_missing_aborts :
    getParentHosts c5Registry c5Host = .error (.hostNotFound "missing") := by
  rfl

/-- C5 (amended): while iterating a dependency map, the host's own name as
a key is skipped, and entries that resolve are returned; but an entry whose
referenced name does not resolve makes the whole computation abort with a
NotFound error (`Host::GetByName` and `Host::ResolveService` throw), rather
than being skipped. -/
theorem getParentHosts_lookup_behavior :
    (∀ (reg : Registry) (host : HostObj) (deps : List String),
      host.hostDependencies = some deps →
      (∀ k ∈ deps, k ≠ host.name → hostExists reg k = true) →
      getParentHosts reg host
        = .ok ((deps.filter (fun k => k != host.name)).filterMap (hostGetObject reg))) ∧
    (∀ (reg : Registry) (host : HostObj) (deps : List String) (k : String),
      host.hostDependencies = some deps → k ∈ deps → k ≠ host.name →
      hostExists reg k = false →
      ∃ e, getParentHosts reg host = .error e) ∧
    (∀ (reg : Registry) (host : HostObj) (deps : List String),
      host.serviceDependencies = some deps →
      (∀ k ∈ deps, (resolveService reg host.name k).toOption.isSome = true) →
      getParentServices reg host
        = .ok (deps.filterMap (fun k => (resolveService reg host.name k).toOption))) ∧
    (∀ (reg : Registry) (host : HostObj) (deps : List String) (k : String),
      host.serviceDependencies = some deps → k ∈ deps →
      serviceExists reg (host.name ++ "-" ++ k) = false → serviceExists reg k = false →
      ∃ e, getParentServices reg host = .error e) := by
  refine ⟨?_, ?_, ?_, ?_⟩
  · intro reg host deps hdeps hall
    unfold getParentHosts
    rw [hdeps]
    show getParentHostsLoop reg host.name deps [] = _
    rw [getParentHostsLoop_ok reg host.name deps [] hall]
    simp
  · intro reg host deps k hdeps hk hne hnex
    unfold getParentHosts
    rw [hdeps]
    show ∃ e, getParentHostsLoop reg host.name deps [] = .error e
    exact getParentHostsLoop_error reg host.name deps [] ⟨k, hk, hne, hnex⟩
  · intro reg host deps hdeps hall
    unfold getParentServices
    rw [hdeps]
    show getParentServicesLoop reg host.name deps [] = _
    rw [getParentServicesLoop_ok reg host.name deps [] hall]
    simp
  · intro reg host deps k hdeps hk hc hb
    unfold getParentServices
    rw [hdeps]
    show ∃ e, getParentServicesLoop reg host.name deps [] = .error e
    exact getParentServicesLoop_error reg host.name deps [] ⟨k, hk, hc, hb⟩

/-- A registry with a parent host `p` for the amended-C5 witness. -/
def c5ParentHost : HostObj :=
  { name := "p", hostDependencies := none, serviceDependencies := none }

/-- A host depending on `p` and (redundantly) on itself. -/
def c5SelfHost : HostObj :=
  { name := "h", hostDependencies := some ["p", "h"], serviceDependencies := none }

/-- Registry for the amended-C5 witness. -/
def c5WitnessRegistry : Registry :=
  { hosts := [c5SelfHost, c5ParentHost], services := [] }

theorem getParentHosts_lookup_behavior_witness :
    getParentHosts c5WitnessRegistry c5SelfHost = .ok [c5ParentHost] ∧
    (∃ e, getParentHosts c5Registry c5Host = .error e) := by
  constructor
  · have h := getParentHosts_lookup_behavior.1 c5WitnessRegistry c5SelfHost ["p", "h"]
      rfl (by decide)
    rw [h]
    rfl
  · exact getParentHosts_lookup_behavior.2.1 c5Registry c5Host ["missing"] "missing"
      rfl (by decide) (by decide) (by decide)

/-! ## Config change bridge (`Host::ObjectCommittedHandler`,
`Host::ValidateServiceDictionary`) -/

/-- An inline service description as inspected by the committed handler: a
scalar reference to a service template, a dictionary with an optional
explicit `"service"` parent, or any other value (which throws). -/
inductive SvcDesc where
  | scalar (parent : String)
  | dict (service : Option String)
  | other
  deriving DecidableEq

/-- Faults thrown by the config change bridge
(`BOOST_THROW_EXCEPTION(invalid_argument(...))`). -/
inductive ConfigFault where
  | invalidServiceDescription
  | missingLocationArgument
  | missingAttributeDictionary
  deriving DecidableEq

/-- The state the committed handler works on: the set of registered
(committed) service config-item names, and the host's
`convenience_services` attribute (the previously synthesized set, `none`
when never set). -/
structure CommitState where
  registered : Finset String
  convenienceServices : Option (List String)
  deriving DecidableEq

/-- The build loop of `Host::ObjectCommittedHandler`: for each inline
declaration, synthesize the service named `"<host>-<svcname>"`, commit it
(registering the name), and record it in the new set.  A description that
is neither a scalar nor a dictionary throws. -/
def buildServicesLoop (hostName : String) :
    List (String × SvcDesc) → Finset String → List String →
      Except ConfigFault (Finset String × List String)
  | [], registered, newServices => .ok (registered, newServices)
  | (svcname, svcdesc) :: rest, registered, newServices =>
    let name := hostName ++ "-" ++ svcname
    match svcdesc with
    | .scalar _ => buildServicesLoop hostName rest (insert name registered) (newServices.insert name)
    | .dict _ => buildServicesLoop hostName rest (insert name registered) (newServices.insert name)
    | .other => .error .invalidServiceDescription

/-- The unregister loop of `Host::ObjectCommittedHandler`: every
previously-synthesized service whose name the new set does not contain is
unregistered. -/
def unregisterAbsentLoop (newServices : List String) :
    List String → Finset String → Finset String
  | [], registered => registered
  | name :: rest, registered =>
    if name ∈ newServices then unregisterAbsentLoop newServices rest registered
    else unregisterAbsentLoop newServices rest (registered.erase name)

/-- `Host::ObjectCommittedHandler` for a concrete host object: build and
commit the complete new synthesized-service set, then unregister the old
services absent from it, then store the new set. -/
def objectCommittedHandler (hostName : String) (serviceDescs : Option (List (String × SvcDesc)))
    (st : CommitState) : Except ConfigFault CommitState :=
  let oldServices := st.convenienceServices
  match buildServicesLoop hostName (serviceDescs.getD []) st.registered [] with
  | .error e => .error e
  | .ok (registered, newServices) =>
    let registered2 :=
      match oldServices with
      | none => registered
      | some olds => unregisterAbsentLoop newServices olds registered
    .ok { registered := registered2, convenienceServices := some newServices }

theorem buildServicesLoop_ok (hostName : String) :
    ∀ (descs : List (String × SvcDesc)) (registered : Finset String) (acc : List String),
      (∀ d ∈ descs, d.2 ≠ SvcDesc.other) →
      ∃ registered2 newServices,
        buildServicesLoop hostName descs registered acc = .ok (registered2, newServices) ∧
        (∀ n, n ∈ newServices ↔ (n ∈ acc ∨ ∃ d ∈ descs, n = hostName ++ "-" ++ d.1)) ∧
        (∀ n, n ∈ registered2 ↔ (n ∈ registered ∨ ∃ d ∈ descs, n = hostName ++ "-" ++ d.1)) := by
  intro descs
  induction descs with
  | nil =>
    intro registered acc _
    exact ⟨registered, acc, rfl, fun n => by simp, fun n => by simp⟩
  | cons d rest ih =>
    intro registered acc hgood
    rcases d with ⟨svcname, svcdesc⟩
    have hrest : ∀ d ∈ rest, d.2 ≠ SvcDesc.other :=
      fun d hd => hgood d (List.mem_cons_of_mem _ hd)
    have step :
        ∀ (r2 : Finset String) (n2 : List String),
          buildServicesLoop hostName rest (insert (hostName ++ "-" ++ svcname) registered)
              (acc.insert (hostName ++ "-" ++ svcname)) = .ok (r2, n2) →
          (∀ n, n ∈ n2 ↔ (n ∈ acc.insert (hostName ++ "-" ++ svcname)
              ∨ ∃ d ∈ rest, n = hostName ++ "-" ++ d.1)) →
          (∀ n, n ∈ r2 ↔ (n ∈ insert (hostName ++ "-" ++ svcname) registered
              ∨ ∃ d ∈ rest, n = hostName ++ "-" ++ d.1)) →
          (∀ n, n ∈ n2 ↔ (n ∈ acc ∨ ∃ d ∈ (svcname, svcdesc) :: rest, n = hostName ++ "-" ++ d.1)) ∧
          (∀ n, n ∈ r2 ↔ (n ∈ registered ∨ ∃ d ∈ (svcname, svcdesc) :: rest, n = hostName ++ "-" ++ d.1)) := by
      intro r2 n2 _ hn hrg
      constructor
      · intro n
        rw [hn n, List.mem_insert_iff]
        simp only [List.mem_cons]
        constructor
        · rintro ((he | ha) | ⟨d, hd, he⟩)
          · exact Or.inr ⟨(svcname, svcdesc), Or.inl rfl, he⟩
          · exact Or.inl ha
          · exact Or.inr ⟨d, Or.inr hd, he⟩
        · rintro (ha | ⟨d, (hd | hd), he⟩)
          · exact Or.inl (Or.inr ha)
          · subst hd; exact Or.inl (Or.inl he)
          · exact Or.inr ⟨d, hd, he⟩
      · intro n
        rw [hrg n, Finset.mem_insert]
        simp only [List.mem_cons]
        constructor
        · rintro ((he | ha) | ⟨d, hd, he⟩)
          · exact Or.inr ⟨(svcname, svcdesc), Or.inl rfl, he⟩
          · exact Or.inl ha
          · exact Or.inr ⟨d, Or.inr hd, he⟩
        · rintro (ha | ⟨d, (hd | hd), he⟩)
          · exact Or.inl (Or.inr ha)
          · subst hd; exact Or.inl (Or.inl he)
          · exact Or.inr ⟨d, hd, he⟩
    cases svcdesc with
    | other =>
      exact absurd rfl (hgood (svcname, SvcDesc.other) (List.mem_cons_self ..))
    | scalar parent =>
      obtain ⟨r2, n2, heq, hn, hrg⟩ :=
        ih (insert (hostName ++ "-" ++ svcname) registered)
          (acc.insert (hostName ++ "-" ++ svcname)) hrest
      exact ⟨r2, n2, by unfold buildServicesLoop; exact heq, (step r2 n2 heq hn hrg).1,
        (step r2 n2 heq hn hrg).2⟩
    | dict parent =>
      obtain ⟨r2, n2, heq, hn, hrg⟩ :=
        ih (insert (hostName ++ "-" ++ svcname) registered)
          (acc.insert (hostName ++ "-" ++ svcname)) hrest
      exact ⟨r2, n2, by unfold buildServicesLoop; exact heq, (step r2 n2 heq hn hrg).1,
        (step r2 n2 heq hn hrg).2⟩

theorem buildServicesLoop_error (hostName : String) :
    ∀ (descs : List (String × SvcDesc)) (registered : Finset String) (acc : List String),
      (∃ d ∈ descs, d.2 = SvcDesc.other) →
      buildServicesLoop hostName descs registered acc = .error .invalidServiceDescription := by
  intro descs
  induction descs with
  | nil => intro _ _ h; simp at h
  | cons d rest ih =>
    intro registered acc ⟨b, hb, hother⟩
    rcases d with ⟨svcname, svcdesc⟩
    cases svcdesc with
    | other => rfl
    | scalar parent =>
      rcases List.mem_cons.mp hb with he | hm
      · rw [he] at hother; exact absurd hother (by simp)
      · exact ih _ _ ⟨b, hm, hother⟩
    | dict parent =>
      rcases List.mem_cons.mp hb with he | hm
      · rw [he] at hother; exact absurd hother (by simp)
      · exact ih _ _ ⟨b, hm, hother⟩

theorem unregisterAbsentLoop_mem (newServices : List String) :
    ∀ (olds : List String) (registered : Finset String) (n : String),
      n ∈ unregisterAbsentLoop newServices olds registered ↔
        (n ∈ registered ∧ ¬ (n ∈ olds ∧ n ∉ newServices)) := by
  intro olds
  induction olds with
  | nil => intro registered n; simp [unregisterAbsentLoop]
  | cons o rest ih =>
    intro registered n
    unfold unregisterAbsentLoop
    by_cases ho : o ∈ newServices
    · rw [if_pos ho, ih]
      constructor
      · rintro ⟨hr, hno⟩
        refine ⟨hr, ?_⟩
        rintro ⟨hm, hnn⟩
        rcases List.mem_cons.mp hm with he | hm2
        · subst he; exact hnn ho
        · exact hno ⟨hm2, hnn⟩
      · rintro ⟨hr, hno⟩
        exact ⟨hr, fun ⟨hm, hnn⟩ => hno ⟨List.mem_cons_of_mem _ hm, hnn⟩⟩
    · rw [if_neg ho, ih]
      rw [Finset.mem_erase]
      constructor
      · rintro ⟨⟨hne, hr⟩, hno⟩
        refine ⟨hr, ?_⟩
        rintro ⟨hm, hnn⟩
        rcases List.mem_cons.mp hm with he | hm2
        · exact hne he
        · exact hno ⟨hm2, hnn⟩
      · rintro ⟨hr, hno⟩
        refine ⟨⟨?_, hr⟩, fun ⟨hm, hnn⟩ => hno ⟨List.mem_cons_of_mem _ hm, hnn⟩⟩
        intro he
        subst he
        exact hno ⟨List.mem_cons_self .., ho⟩

theorem objectCommittedHandler_ok (hostName : String) (descs : List (String × SvcDesc))
    (st : CommitState) (hgood : ∀ d ∈ descs, d.2 ≠ SvcDesc.other) :
    ∃ (registered2 : Finset String) (newNames : List String),
      objectCommittedHandler hostName (some descs) st
          = .ok { registered := registered2, convenienceServices := some newNames } ∧
      (∀ n, n ∈ newNames ↔ ∃ d ∈ descs, n = hostName ++ "-" ++ d.1) ∧
      (∀ n, n ∈ registered2 ↔
        ((∃ d ∈ descs, n = hostName ++ "-" ++ d.1) ∨
          (n ∈ st.registered ∧
            ¬ (n ∈ st.convenienceServices.getD [] ∧ ¬ ∃ d ∈ descs, n = hostName ++ "-" ++ d.1)))) := by
  obtain ⟨reg1, names, heq, hn, hrg⟩ := buildServicesLoop_ok hostName descs st.registered [] hgood
  have hn' : ∀ n, n ∈ names ↔ ∃ d ∈ descs, n = hostName ++ "-" ++ d.1 := by
    intro n; rw [hn n]; simp
  cases hcs : st.convenienceServices with
  | none =>
    refine ⟨reg1, names, ?_, hn', ?_⟩
    · simp only [objectCommittedHandler, Option.getD_some, heq, hcs]
    · intro n
      rw [hrg n]
      simp only [Option.getD_none, List.not_mem_nil, false_and, not_false_iff, and_true]
      generalize (∃ d ∈ descs, n = hostName ++ "-" ++ d.1) = P
      tauto
  | some olds =>
    refine ⟨unregisterAbsentLoop names olds reg1, names, ?_, hn', ?_⟩
    · simp only [objectCommittedHandler, Option.getD_some, heq, hcs]
    · intro n
      rw [unregisterAbsentLoop_mem names olds reg1 n, hrg n, hn' n]
      simp only [Option.getD_some]
      generalize (∃ d ∈ descs, n = hostName ++ "-" ++ d.1) = P
      tauto

theorem objectCommittedHandler_error (hostName : String) (descs : List (String × SvcDesc))
    (st : CommitState) (hbad : ∃ d ∈ descs, d.2 = SvcDesc.other) :
    objectCommittedHandler hostName (some descs) st = .error .invalidServiceDescription := by
  simp only [objectCommittedHandler, Option.getD_some,
    buildServicesLoop_error hostName descs st.registered [] hbad]

/-- C7: committing a host builds and commits the complete new
synthesized-service set, unregisters exactly the previously-synthesized
services absent from it, and stores the new set; committing twice with
different inline sets leaves exactly the new set registered (on top of the
unrelated previously-registered names). -/
theorem objectCommittedHandler_regenerates :
    (∀ (hostName : String) (descs : List (String × SvcDesc)) (st : CommitState),
      (∀ d ∈ descs, d.2 ≠ SvcDesc.other) →
      ∃ (registered2 : Finset String) (newNames : List String),
        objectCommittedHandler hostName (some descs) st
            = .ok { registered := registered2, convenienceServices := some newNames } ∧
        (∀ n, n ∈ newNames ↔ ∃ d ∈ descs, n = hostName ++ "-" ++ d.1) ∧
        (∀ n, n ∈ registered2 ↔
          ((∃ d ∈ descs, n = hostName ++ "-" ++ d.1) ∨
            (n ∈ st.registered ∧
              ¬ (n ∈ st.convenienceServices.getD [] ∧
                ¬ ∃ d ∈ descs, n = hostName ++ "-" ++ d.1))))) ∧
    (∀ (hostName : String) (descsA descsB : List (String × SvcDesc)) (st0 stA stB : CommitState),
      (∀ d ∈ descsA, d.2 ≠ SvcDesc.other) →
      (∀ d ∈ descsB, d.2 ≠ SvcDesc.other) →
      st0.convenienceServices = none →
      (∀ d ∈ descsA, hostName ++ "-" ++ d.1 ∉ st0.registered) →
      (∀ d ∈ descsB, hostName ++ "-" ++ d.1 ∉ st0.registered) →
      objectCommittedHandler hostName (some descsA) st0 = .ok stA →
      objectCommittedHandler hostName (some descsB) stA = .ok stB →
      (∀ n, n ∈ stB.registered ↔
          (n ∈ st0.registered ∨ ∃ d ∈ descsB, n = hostName ++ "-" ++ d.1)) ∧
      (∃ newNames, stB.convenienceServices = some newNames ∧
        (∀ n, n ∈ newNames ↔ ∃ d ∈ descsB, n = hostName ++ "-" ++ d.1))) := by
  refine ⟨objectCommittedHandler_ok, ?_⟩
  intro hostName descsA descsB st0 stA stB hgA hgB hconv hdisjA hdisjB hA hB
  obtain ⟨regA, namesA, heqA, hnA, hrgA⟩ := objectCommittedHandler_ok hostName descsA st0 hgA
  rw [hA] at heqA
  have hstA : stA = { registered := regA, convenienceServices := some namesA } := by
    injection heqA
  subst hstA
  obtain ⟨regB, namesB, heqB, hnB, hrgB⟩ := objectCommittedHandler_ok hostName descsB
    { registered := regA, convenienceServices := some namesA } hgB
  rw [hB] at heqB
  have hstB : stB = { registered := regB, convenienceServices := some namesB } := by
    injection heqB
  subst hstB
  simp only [Option.getD_some] at hrgB
  constructor
  · intro n
    have hB' := hrgB n
    rw [hnA n] at hB'
    have hA' := hrgA n
    rw [hconv] at hA'
    simp only [Option.getD_none, List.not_mem_nil, false_and, not_false_iff, and_true] at hA'
    rw [hA'] at hB'
    have hS0A : n ∈ st0.registered → ¬ ∃ d ∈ descsA, n = hostName ++ "-" ++ d.1 := by
      rintro hs ⟨d, hd, he⟩
      exact hdisjA d hd (he ▸ hs)
    have hS0B : n ∈ st0.registered → ¬ ∃ d ∈ descsB, n = hostName ++ "-" ++ d.1 := by
      rintro hs ⟨d, hd, he⟩
      exact hdisjB d hd (he ▸ hs)
    show n ∈ regB ↔ (n ∈ st0.registered ∨ ∃ d ∈ descsB, n = hostName ++ "-" ++ d.1)
    rw [hB']
    revert hS0A hS0B
    generalize (∃ d ∈ descsA, n = hostName ++ "-" ++ d.1) = PA
    generalize (∃ d ∈ descsB, n = hostName ++ "-" ++ d.1) = PB
    tauto
  · exact ⟨namesB, rfl, hnB⟩

/-- First inline service set for the C7 witness. -/
def c7DescsA : List (String × SvcDesc) := [("a", SvcDesc.scalar "t")]

/-- Second inline service set for the C7 witness. -/
def c7DescsB : List (String × SvcDesc) := [("b", SvcDesc.dict none)]

/-- State after the first commit of the C7 witness. -/
def c7StA : CommitState :=
  { registered := {"h-a"}, convenienceServices := some ["h-a"] }

/-- State after the second commit of the C7 witness. -/
def c7StB : CommitState :=
  { registered := {"h-b"}, convenienceServices := some ["h-b"] }

set_option maxHeartbeats 2000000 in
theorem objectCommittedHandler_regenerates_witness :
    "h-b" ∈ c7StB.registered ∧ "h-a" ∉ c7StB.registered ∧
    c7StB.convenienceServices = some ["h-b"] := by
  have h := objectCommittedHandler_regenerates.2 "h" c7DescsA c7DescsB
    { registered := ∅, convenienceServices := none } c7StA c7StB
    (by decide) (by decide) rfl (by decide) (by decide) rfl rfl
  refine ⟨?_, ?_, rfl⟩
  · exact (h.1 "h-b").mpr (Or.inr ⟨("b", SvcDesc.dict none), by decide, rfl⟩)
  · intro hmem
    rcases (h.1 "h-a").mp hmem with h0 | ⟨d, hd, he⟩
    · exact absurd h0 (by decide)
    · have hd' : d = ("b", SvcDesc.dict none) := by simpa [c7DescsB] using hd
      rw [hd'] at he
      exact absurd he (by decide)

/-- A value passed to the `ValidateServiceDictionary` script function: a
scalar string, a service-description dictionary (string-valued entries), or
any other value. -/
inductive ScriptValue where
  | str (s : String)
  | dict (entries : List (String × ScriptValue))
  | other

/-- `Value`-to-`String` cast used when reading an argument or a dictionary
entry. -/
def ScriptValue.asString : ScriptValue → String
  | .str s => s
  | _ => ""

/-- An error recorded through `ConfigCompilerContext::AddError`: tied to
the location tag of the validation call and naming the unresolved
service. -/
structure ValidationError where
  location : String
  service : String
  deriving DecidableEq

/-- The reference name a dictionary entry of the attribute map resolves to:
a scalar value is the name itself, a dictionary uses its explicit
`"service"` entry falling back to the map key, any other value is
skipped. -/
def serviceRefName (key : String) : ScriptValue → Option String
  | .str s => some s
  | .dict entries =>
    match entries.find? (fun e => e.1 = "service") with
    | some e => some e.2.asString
    | none => some key
  | .other => none

/-- The attribute-map loop of `Host::ValidateServiceDictionary`: one
location-tagged error per reference that does not resolve to an existing
service; values that are neither scalars nor dictionaries are skipped. -/
def validateServiceLoop (services : Finset String) (location : String) :
    List (String × ScriptValue) → List ValidationError
  | [] => []
  | (key, value) :: rest =>
    match serviceRefName key value with
    | none => validateServiceLoop services location rest
    | some name =>
      if name ∈ services then validateServiceLoop services location rest
      else { location := location, service := name } :: validateServiceLoop services location rest

/-- `Host::ValidateServiceDictionary`: the two argument-count checks throw;
a well-formed call walks the attribute dictionary and returns the recorded
validation errors.  The first argument is cast to a string location; a
second argument that is not a dictionary contributes no entries. -/
def validateServiceDictionary (services : Finset String) (arguments : List ScriptValue) :
    Except ConfigFault (List ValidationError) :=
  match arguments with
  | [] => .error .missingLocationArgument
  | [_] => .error .missingAttributeDictionary
  | location :: attrs :: _ =>
    let attrEntries : List (String × ScriptValue) :=
      match attrs with
      | .dict entries => entries
      | _ => []
    .ok (validateServiceLoop services location.asString attrEntries)

theorem validateServiceLoop_spec (services : Finset String) (location : String) :
    ∀ attrs : List (String × ScriptValue),
      validateServiceLoop services location attrs
        = attrs.filterMap (fun e =>
            match serviceRefName e.1 e.2 with
            | none => none
            | some name =>
              if name ∈ services then none
              else some { location := location, service := name }) := by
  intro attrs
  induction attrs with
  | nil => rfl
  | cons e rest ih =>
    rcases e with ⟨key, value⟩
    unfold validateServiceLoop
    rcases hr : serviceRefName key value with _ | name
    · simp [List.filterMap_cons, hr, ih]
    · by_cases hm : name ∈ services
      · simp [List.filterMap_cons, hr, hm, ih]
      · simp [List.filterMap_cons, hr, hm, ih]

/-- C9 counterexample: both InvalidConfiguration conditions are thrown as
faults that abort the calling operation, not reported to the compiler.  A
validation call without its location argument throws, and committing a host
whose inline service description is neither a scalar nor a dictionary
throws. -/
theorem invalidConfiguration_throws :
    validateServiceDictionary ∅ [] = .error .missingLocationArgument ∧
    validateServiceDictionary ∅ [ScriptValue.str "loc"] = .error .missingAttributeDictionary ∧
    objectCommittedHandler "h" (some [("s", SvcDesc.other)])
        { registered := ∅, convenienceServices := none }
      = .error .invalidServiceDescription := by
  exact ⟨rfl, rfl, rfl⟩

/-- C9 (amended): a service description that is neither a scalar nor a
dictionary, and a validation call missing its required arguments, are
thrown as invalid-argument faults that abort the calling operation.  What
is reported to the configuration compiler as location-tagged validation
errors — without aborting — are service references that do not resolve:
a call with both arguments never throws, records one error per unresolved
reference, and every recorded error carries the call's location tag. -/
theorem invalidConfiguration_fault_behavior :
    (∀ (hostName : String) (descs : List (String × SvcDesc)) (st : CommitState),
      (∃ d ∈ descs, d.2 = SvcDesc.other) →
      objectCommittedHandler hostName (some descs) st = .error .invalidServiceDescription) ∧
    (∀ services : Finset String,
      validateServiceDictionary services [] = .error .missingLocationArgument) ∧
    (∀ (services : Finset String) (v : ScriptValue),
      validateServiceDictionary services [v] = .error .missingAttributeDictionary) ∧
    (∀ (services : Finset String) (location attrs : ScriptValue) (rest : List ScriptValue),
      ∃ errors, validateServiceDictionary services (location :: attrs :: rest) = .ok errors ∧
        (∀ e ∈ errors, e.location = location.asString ∧ e.service ∉ services)) := by
  refine ⟨objectCommittedHandler_error, fun _ => rfl, fun _ _ => rfl, ?_⟩
  intro services location attrs rest
  refine ⟨_, rfl, ?_⟩
  intro e he
  rw [validateServiceLoop_spec] at he
  rcases List.mem_filterMap.mp he with ⟨⟨key, value⟩, _, hres⟩
  rcases hr : serviceRefName key value with _ | name
  · rw [hr] at hres; simp at hres
  · rw [hr] at hres
    by_cases hm : name ∈ services
    · simp [hm] at hres
    · simp only [hm, if_false, Option.some.injEq] at hres
      cases hres
      exact ⟨rfl, hm⟩

theorem invalidConfiguration_fault_behavior_witness :
    objectCommittedHandler "h" (some [("s", SvcDesc.other)])
        { registered := ∅, convenienceServices := none }
      = .error .invalidServiceDescription ∧
    validateServiceDictionary ∅ [] = .error .missingLocationArgument ∧
    validateServiceDictionary ∅ [ScriptValue.str "loc"] = .error .missingAttributeDictionary ∧
    (∃ errors,
      validateServiceDictionary ∅
          [ScriptValue.str "loc", ScriptValue.dict [("web", ScriptValue.str "svc")]] = .ok errors ∧
        (∀ e ∈ errors, e.location = (ScriptValue.str "loc").asString ∧ e.service ∉ (∅ : Finset String))) := by
  refine ⟨?_, ?_, ?_, ?_⟩
  · exact invalidConfiguration_fault_behavior.1 "h" [("s", SvcDesc.other)]
      { registered := ∅, convenienceServices := none } ⟨("s", SvcDesc.other), by decide, rfl⟩
  · exact invalidConfiguration_fault_behavior.2.1 ∅
  · exact invalidConfiguration_fault_behavior.2.2.1 ∅ (ScriptValue.str "loc")
  · exact invalidConfiguration_fault_behavior.2.2.2 ∅ (ScriptValue.str "loc")
      (ScriptValue.dict [("web", ScriptValue.str "svc")]) []

/-! ## Service-Cache (`Host::GetServices`, `Host::InvalidateServicesCache`,
`Host::ValidateServicesCache`) -/

/-- The global service cache: a map from host name to the weakly-held
services of that host (weak references are modelled as names validated
against the live registry on read, per the design notes), plus the
validity flag. -/
structure ServicesCache where
  cache : List (String × List String)
  valid : Bool
  deriving DecidableEq

/-- `m_ServicesCache[hostName]`. -/
def cacheLookup : List (String × List String) → String → List String
  | [], _ => []
  | (k, v) :: rest, hostName => if k = hostName then v else cacheLookup rest hostName

/-- `m_ServicesCache[hostName].push_back(service)`. -/
def cacheInsert (cache : List (String × List String)) (hostName : String) (svcName : String) :
    List (String × List String) :=
  match cache with
  | [] => [(hostName, [svcName])]
  | (k, v) :: rest =>
    if k = hostName then (k, v ++ [svcName]) :: rest
    else (k, v) :: cacheInsert rest hostName svcName

/-- The rebuild scan of `Host::ValidateServicesCache`: one pass over all
live services, grouping each under its host's name (`service->GetHost()->
GetName()`; `Service::GetHost` is outside this repository slice and is
modelled from the spec as resolving to the service's declared host
name). -/
def buildServicesCache (services : List Service) : List (String × List String) :=
  services.foldl (fun cache s => cacheInsert cache s.hostName s.name) []

/-- `Host::InvalidateServicesCache`: mark stale and clear, whatever the
prior cache state was. -/
def invalidateServicesCache (_priorState : ServicesCache) : ServicesCache :=
  { cache := [], valid := false }

/-- `Host::ValidateServicesCache`: rebuild if stale, otherwise keep. -/
def validateServicesCache (registry : List Service) (st : ServicesCache) : ServicesCache :=
  if st.valid then st
  else { cache := buildServicesCache registry, valid := true }

/-- `Host::GetServices`: validate the cache, then lock each weak entry for
this host, silently dropping entries whose service no longer lives in the
registry. -/
def getServices (registry : List Service) (hostName : String) (st : ServicesCache) :
    List Service × ServicesCache :=
  let st2 := validateServicesCache registry st
  ((cacheLookup st2.cache hostName).filterMap
      (fun n => registry.find? (fun s => s.name = n)), st2)

theorem cacheLookup_cacheInsert (hostName svcName h2 : String) :
    ∀ cache, cacheLookup (cacheInsert cache hostName svcName) h2
      = cacheLookup cache h2 ++ (if h2 = hostName then [svcName] else []) := by
  intro cache
  induction cache with
  | nil =>
    show (if hostName = h2 then [svcName] else cacheLookup [] h2)
      = cacheLookup [] h2 ++ (if h2 = hostName then [svcName] else [])
    by_cases h : h2 = hostName
    · rw [if_pos h.symm, if_pos h]; rfl
    · rw [if_neg (fun hh => h hh.symm), if_neg h]; rfl
  | cons e rest ih =>
    rcases e with ⟨k, v⟩
    unfold cacheInsert
    by_cases hk : k = hostName
    · rw [if_pos hk]
      by_cases h2k : k = h2
      · have hh2 : h2 = hostName := by rw [← h2k, hk]
        show (if k = h2 then v ++ [svcName] else cacheLookup rest h2)
          = (if k = h2 then v else cacheLookup rest h2)
              ++ (if h2 = hostName then [svcName] else [])
        rw [if_pos h2k, if_pos h2k, if_pos hh2]
      · have hh2 : ¬ h2 = hostName := by rw [← hk]; exact fun hh => h2k hh.symm
        show (if k = h2 then v ++ [svcName] else cacheLookup rest h2)
          = (if k = h2 then v else cacheLookup rest h2)
              ++ (if h2 = hostName then [svcName] else [])
        rw [if_neg h2k, if_neg h2k, if_neg hh2]
        simp
    · rw [if_neg hk]
      by_cases h2k : k = h2
      · subst h2k
        show (if k = k then v else cacheLookup (cacheInsert rest hostName svcName) k)
          = (if k = k then v else cacheLookup rest k)
              ++ (if k = hostName then [svcName] else [])
        rw [if_pos rfl, if_pos rfl, if_neg hk]
        simp
      · show (if k = h2 then v else cacheLookup (cacheInsert rest hostName svcName) h2)
          = (if k = h2 then v else cacheLookup rest h2)
              ++ (if h2 = hostName then [svcName] else [])
        rw [if_neg h2k, if_neg h2k, ih]

theorem cacheLookup_buildServicesCache_gen (h2 : String) :
    ∀ (services : List Service) (cache : List (String × List String)),
      cacheLookup (services.foldl (fun c s => cacheInsert c s.hostName s.name) cache) h2
        = cacheLookup cache h2
            ++ (services.filter (fun s => s.hostName = h2)).map (fun s => s.name) := by
  intro services
  induction services with
  | nil => intro cache; simp
  | cons s rest ih =>
    intro cache
    rw [List.foldl_cons, ih, cacheLookup_cacheInsert]
    by_cases hh : s.hostName = h2
    · rw [if_pos hh.symm]
      simp [List.filter_cons, hh, List.append_assoc]
    · rw [if_neg (fun hc => hh hc.symm)]
      simp [List.filter_cons, hh]

theorem cacheLookup_buildServicesCache (registry : List Service) (h2 : String) :
    cacheLookup (buildServicesCache registry) h2
      = (registry.filter (fun s => s.hostName = h2)).map (fun s => s.name) := by
  unfold buildServicesCache
  rw [cacheLookup_buildServicesCache_gen]
  simp [cacheLookup]

/-- C8: after any prior cache state, invalidating and then reading yields
exactly the currently-live services whose declared host name matches (the
rebuild scans live services and groups them by host name), and a read never
returns a service that is not live in the registry — cache entries whose
service has been destroyed are dropped. -/
theorem getServices_roundtrip (registry : List Service) (hostName : String)
    (hnodup : (registry.map (fun s => s.name)).Nodup) :
    (∀ (st : ServicesCache) (s : Service),
      s ∈ (getServices registry hostName (invalidateServicesCache st)).1 ↔
        (s ∈ registry ∧ s.hostName = hostName)) ∧
    (∀ (st : ServicesCache) (s : Service),
      s ∈ (getServices registry hostName st).1 → s ∈ registry) := by
  have hinj : ∀ x ∈ registry, ∀ y ∈ registry, x.name = y.name → x = y :=
    List.inj_on_of_nodup_map hnodup
  constructor
  · intro st s
    show s ∈ (cacheLookup (validateServicesCache registry (invalidateServicesCache st)).cache
        hostName).filterMap (fun n => registry.find? (fun t => t.name = n)) ↔ _
    have hcache : (validateServicesCache registry (invalidateServicesCache st)).cache
        = buildServicesCache registry := by
      simp [validateServicesCache, invalidateServicesCache]
    rw [hcache, cacheLookup_buildServicesCache, List.mem_filterMap]
    constructor
    · rintro ⟨n, hn, hfind⟩
      have hs : s ∈ registry := List.mem_of_find?_eq_some hfind
      have hname : s.name = n := by
        have := List.find?_some hfind
        simpa using this
      rcases List.mem_map.mp hn with ⟨t, htf, htn⟩
      have ht : t ∈ registry ∧ t.hostName = hostName := by
        have := List.mem_filter.mp htf
        simpa using this
      have hst : s = t := hinj s hs t ht.1 (by rw [hname, htn])
      exact ⟨hs, by rw [hst]; exact ht.2⟩
    · rintro ⟨hs, hh⟩
      refine ⟨s.name, ?_, ?_⟩
      · exact List.mem_map.mpr ⟨s, List.mem_filter.mpr ⟨hs, by simp [hh]⟩, rfl⟩
      · have hsome : (registry.find? (fun t => t.name = s.name)).isSome := by
          rw [List.find?_isSome]
          exact ⟨s, hs, by simp⟩
        rcases ho : registry.find? (fun t => t.name = s.name) with _ | t
        · rw [ho] at hsome; simp at hsome
        · have htr : t ∈ registry := List.mem_of_find?_eq_some ho
          have htn : t.name = s.name := by
            have := List.find?_some ho
            simpa using this
          rw [hinj t htr s hs htn] at ho
          exact ho
  · intro st s hs
    have : s ∈ (cacheLookup (validateServicesCache registry st).cache hostName).filterMap
        (fun n => registry.find? (fun t => t.name = n)) := hs
    rcases List.mem_filterMap.mp this with ⟨n, _, hfind⟩
    exact List.mem_of_find?_eq_some hfind

/-- Live services for the C8 witness: one on host `h`, one on host `g`. -/
def c8Svc1 : Service :=
  { name := "h-web", hostName := "h", state := ServiceState.ok
    stateType := StateType.hard, lastCheckResult := some () }

/-- Second live service for the C8 witness. -/
def c8Svc2 : Service :=
  { name := "g-web", hostName := "g", state := ServiceState.ok
    stateType := StateType.hard, lastCheckResult := some () }

/-- The live registry for the C8 witness. -/
def c8Registry : List Service := [c8Svc1, c8Svc2]

theorem getServices_roundtrip_witness :
    c8Svc1 ∈ (getServices c8Registry "h"
      (invalidateServicesCache { cache := [], valid := true })).1 ∧
    c8Svc2 ∉ (getServices c8Registry "h"
      (invalidateServicesCache { cache := [], valid := true })).1 := by
  have h := getServices_roundtrip c8Registry "h" (by decide)
  constructor
  · exact (h.1 { cache := [], valid := true } c8Svc1).mpr ⟨by decide, rfl⟩
  · intro hm
    have := (h.1 { cache := [], valid := true } c8Svc2).mp hm
    exact absurd this.2 (by decide)

end Icinga
